import Mathlib

/-!
Verification of the instruction-encoding and signing/verification service in
`src/src/main.rs` (an Axum HTTP service building Solana-style instructions).

Bytes are modelled as `Nat` values (< 256 where it matters); strings are Lean
`String`s; fallible handlers return `Except String α` where the `String` is
exactly the error message produced by `error_response` in the source.

The external cryptographic primitives (ed25519 key validation, signing and
verification, supplied by `solana_sdk` / `ed25519_dalek`) are out of scope per
the specification ("assumed correct, consumed as a capability"); they are
modelled as a parameter structure `Ed25519`, and theorems about the signing
paths are proved for every instantiation of that structure.
-/

deriving instance DecidableEq for Except

namespace SolSvc

/-! ## Base58 codec (the `bs58` crate, as used for secrets and `Pubkey` text) -/

/-- The base58 alphabet used by the `bs58` crate (Bitcoin alphabet). -/
def b58Alphabet : List Char :=
  "123456789ABCDEFGHJKLMNPQRSTUVWXYZabcdefghijkmnopqrstuvwxyz".data

/-- Index of a character in a character list, `none` when absent. -/
def charIdx (c : Char) : List Char → Option Nat
  | [] => none
  | d :: ds => if d = c then some 0 else (charIdx c ds).map (· + 1)

/-- Value of a base58 digit character. -/
def b58Digit (c : Char) : Option Nat := charIdx c b58Alphabet

/-- Character of a base58 digit value. -/
def b58Char (d : Nat) : Char := b58Alphabet.getD d '1'

/-- Big-endian base58 accumulation over a character list; fails on a
character outside the alphabet (as `bs58::decode` does). -/
def b58ValAux (acc : Nat) : List Char → Option Nat
  | [] => some acc
  | c :: cs =>
    match b58Digit c with
    | none => none
    | some d => b58ValAux (acc * 58 + d) cs

/-- Number of leading `'1'` characters (each stands for a zero byte). -/
def leadingOnes : List Char → Nat
  | [] => 0
  | c :: cs => if c = '1' then leadingOnes cs + 1 else 0

/-- Number of leading zero bytes. -/
def leadingZeros : List Nat → Nat
  | [] => 0
  | b :: bs => if b = 0 then leadingZeros bs + 1 else 0

/-- Big-endian bytes of a natural number, with structural fuel so the
definition computes by kernel reduction; `natBeBytes` supplies enough fuel. -/
def natBeBytesF : Nat → Nat → List Nat
  | 0, _ => []
  | fuel + 1, n => if n = 0 then [] else natBeBytesF fuel (n / 256) ++ [n % 256]

/-- Big-endian bytes of a natural number (empty for zero). -/
def natBeBytes (n : Nat) : List Nat := natBeBytesF n n

/-- Big-endian base58 digit characters of a natural number, with fuel. -/
def natB58CharsF : Nat → Nat → List Char
  | 0, _ => []
  | fuel + 1, n => if n = 0 then [] else natB58CharsF fuel (n / 58) ++ [b58Char (n % 58)]

/-- Big-endian base58 digit characters of a natural number (empty for zero). -/
def natB58Chars (n : Nat) : List Char := natB58CharsF n n

/-- Big-endian base-256 value of a byte list. -/
def beValAux (acc : Nat) : List Nat → Nat
  | [] => acc
  | b :: bs => beValAux (acc * 256 + b) bs

/-- `bs58::encode`: leading zero bytes become `'1'` characters, the rest is
the big-endian base58 numeral of the value. -/
def encodeBase58 (l : List Nat) : String :=
  String.mk (List.replicate (leadingZeros l) '1' ++ natB58Chars (beValAux 0 l))

/-- `bs58::decode(...).into_vec()`: fails on a non-alphabet character,
otherwise leading `'1'`s become zero bytes followed by the big-endian bytes
of the decoded value. -/
def decodeBase58 (s : String) : Option (List Nat) :=
  match b58ValAux 0 s.data with
  | none => none
  | some n => some (List.replicate (leadingOnes s.data) 0 ++ natBeBytes n)

/-- `Pubkey::from_str` (`solana_sdk`): rejects strings longer than 44
characters, base58-decodes, and requires exactly 32 decoded bytes. -/
def parsePubkey (s : String) : Option (List Nat) :=
  if s.length > 44 then none
  else
    match decodeBase58 s with
    | none => none
    | some bs => if bs.length = 32 then some bs else none

/-! ## Base64 codec (the `base64` crate's `STANDARD` engine: padded, canonical) -/

/-- The standard base64 alphabet. -/
def b64Alphabet : List Char :=
  "ABCDEFGHIJKLMNOPQRSTUVWXYZabcdefghijklmnopqrstuvwxyz0123456789+/".data

/-- Value of a base64 digit character. -/
def b64Digit (c : Char) : Option Nat := charIdx c b64Alphabet

/-- Character of a base64 digit value. -/
def b64Char (d : Nat) : Char := b64Alphabet.getD d 'A'

/-- Standard padded base64 encoding over byte lists, three bytes per group. -/
def encodeB64Chars : List Nat → List Char
  | [] => []
  | [a] => [b64Char (a / 4), b64Char (a % 4 * 16), '=', '=']
  | [a, b] => [b64Char (a / 4), b64Char (a % 4 * 16 + b / 16), b64Char (b % 16 * 4), '=']
  | a :: b :: c :: t =>
    b64Char (a / 4) :: b64Char (a % 4 * 16 + b / 16) ::
      b64Char (b % 16 * 4 + c / 64) :: b64Char (c % 64) :: encodeB64Chars t

/-- Standard base64 decoding: requires canonical padding, rejects groups
whose trailing bits are nonzero (as the `STANDARD` engine's config does). -/
def decodeB64Chars : List Char → Option (List Nat)
  | [] => some []
  | w :: x :: y :: z :: rest =>
    match b64Digit w, b64Digit x with
    | some a, some b =>
      if y = '=' then
        if z = '=' ∧ rest = [] ∧ b % 16 = 0 then some [a * 4 + b / 16] else none
      else
        match b64Digit y with
        | some c =>
          if z = '=' then
            if rest = [] ∧ c % 4 = 0 then
              some [a * 4 + b / 16, b % 16 * 16 + c / 4]
            else none
          else
            match b64Digit z, decodeB64Chars rest with
            | some d, some bs =>
              some ((a * 4 + b / 16) :: (b % 16 * 16 + c / 4) :: (c % 4 * 64 + d) :: bs)
            | _, _ => none
        | none => none
    | _, _ => none
  | _ => none

/-- `base64::engine::general_purpose::STANDARD.encode`. -/
def encodeBase64 (l : List Nat) : String := String.mk (encodeB64Chars l)

/-- `base64::engine::general_purpose::STANDARD.decode`. -/
def decodeBase64 (s : String) : Option (List Nat) := decodeB64Chars s.data

/-! ## Little-endian u64 bytes and UTF-8 message bytes -/

/-- `u64::to_le_bytes`: the eight little-endian bytes of `a` (for `a < 2^64`
this is exactly the Rust conversion). -/
def u64Le (a : Nat) : List Nat :=
  [a % 256, a / 256 % 256, a / 65536 % 256, a / 16777216 % 256,
   a / 4294967296 % 256, a / 1099511627776 % 256,
   a / 281474976710656 % 256, a / 72057594037927936 % 256]

/-- Value of a little-endian byte list. -/
def leVal : List Nat → Nat
  | [] => 0
  | b :: t => b + 256 * leVal t

/-- `str::as_bytes`: the UTF-8 bytes of a string. -/
def strBytes (s : String) : List Nat := s.toUTF8.toList.map (fun b => b.toNat)

/-! ## External ed25519 primitives, as a capability parameter -/

/-- Interface of the external ed25519 primitives consumed by the handlers.
`validKeyPair64` is the key-material check `ed25519_dalek::Keypair::from_bytes`
performs beyond the 64-byte length check; `sign` is `try_sign_message` on the
64-byte key material; `verify` is `Signature::verify` against a 32-byte
public key. All theorems about the signing paths hold for every instance. -/
structure Ed25519 where
  validKeyPair64 : List Nat → Bool
  sign : List Nat → List Nat → Option (List Nat)
  verify : List Nat → List Nat → List Nat → Bool

/-- `Keypair::from_bytes`: requires exactly 64 bytes, then the external
key-material check; on success the keypair is its 64 bytes. -/
def keypairFromBytes (crypto : Ed25519) (bs : List Nat) : Option (List Nat) :=
  if bs.length = 64 then (if crypto.validKeyPair64 bs then some bs else none)
  else none

/-- `Keypair::pubkey`: the public half is the last 32 of the 64 bytes. -/
def keypairPubkey (kp : List Nat) : List Nat := kp.drop 32

/-- A concrete instantiation of the primitive interface, used only to state
closed instances of the parametric theorems. -/
def constEd25519 : Ed25519 where
  validKeyPair64 := fun _ => true
  sign := fun _ _ => some (List.replicate 64 0)
  verify := fun _ _ _ => true

/-! ## Request and response records (the serde structs of the source) -/

/-- One entry of a response's account list. The three Rust response structs
differ only in how an account is represented, so the three shapes are the
three constructors here: `meta` is `struct AccountMeta` (pubkey, is_signer,
is_writable), `nameOnly` is the bare `String` used by `SolTransferData`, and
`signerMeta` is `struct TokenAccountMeta` (pubkey, isSigner only). -/
inductive AccountEntry where
  | meta (pubkey : String) (is_signer : Bool) (is_writable : Bool)
  | nameOnly (pubkey : String)
  | signerMeta (pubkey : String) (is_signer : Bool)
  deriving DecidableEq

/-- Common shape of `InstructionData`, `SolTransferData`, `TokenTransferData`:
a program id, an account list, and the base64 text of the payload bytes. -/
structure Instruction where
  program_id : String
  accounts : List AccountEntry
  instruction_data : String
  deriving DecidableEq

/-- `struct SignatureData`. -/
structure SignatureData where
  signature : String
  public_key : String
  message : String
  deriving DecidableEq

/-- `struct VerifyData`. -/
structure VerifyData where
  valid : Bool
  message : String
  pubkey : String
  deriving DecidableEq

/-- `struct CreateTokenRequest` (`decimals` is a `u8`). -/
structure CreateTokenRequest where
  mint_authority : String
  mint : String
  decimals : Nat
  deriving DecidableEq

/-- `struct MintTokenRequest` (`amount` is a `u64`). -/
structure MintTokenRequest where
  mint : String
  destination : String
  authority : String
  amount : Nat
  deriving DecidableEq

/-- `struct SignMessageRequest`. -/
structure SignMessageRequest where
  message : String
  secret : String
  deriving DecidableEq

/-- `struct VerifyMessageRequest`. -/
structure VerifyMessageRequest where
  message : String
  signature : String
  pubkey : String
  deriving DecidableEq

/-- `struct SendSolRequest` (`lamports` is a `u64`). -/
structure SendSolRequest where
  fromAddr : String
  toAddr : String
  lamports : Nat
  deriving DecidableEq

/-- `struct SendTokenRequest` (`amount` is a `u64`). -/
structure SendTokenRequest where
  destination : String
  mint : String
  owner : String
  amount : Nat
  deriving DecidableEq

/-- The SPL token program id constant used by the token handlers. -/
def tokenProgramId : String := "TokenkegQfeZyiNwAJbNbGKPFXCWuBvf9Ss623VQ5DA"

/-- The system program id constant used by `send_sol_handler`. -/
def systemProgramId : String := "11111111111111111111111111111112"

/-- A concrete well-formed address text (32 chars, decodes to 32 bytes ending
in 2), used for closed instances. -/
def addrA : String := "11111111111111111111111111111113"

/-- A concrete well-formed address text (32 chars, decodes to 32 bytes ending
in 1), used for closed instances. -/
def addrB : String := "11111111111111111111111111111112"

/-! ## Handlers (the route bodies of `main.rs`, HTTP plumbing stripped) -/

/-- `create_token_handler`: builds the InitializeMint instruction. The source
performs no validation on this path and always answers 200. -/
def create_token_handler (payload : CreateTokenRequest) : Except String Instruction :=
  .ok { program_id := tokenProgramId
        accounts := [.meta payload.mint false true, .meta payload.mint_authority true false]
        instruction_data := encodeBase64 [0, payload.decimals] }

/-- `mint_token_handler`: builds the MintTo instruction. The source performs
no validation on this path and always answers 200. -/
def mint_token_handler (payload : MintTokenRequest) : Except String Instruction :=
  .ok { program_id := tokenProgramId
        accounts := [.meta payload.mint false true, .meta payload.destination false true,
                     .meta payload.authority true false]
        instruction_data := encodeBase64 (7 :: u64Le payload.amount) }

/-- `bs58::encode(keypair.to_bytes())` in `keypair_handler`: the secret text
is the base58 encoding of the 64 key-material bytes. -/
def encodeSecret (kp : List Nat) : String := encodeBase58 kp

/-- The secret-recovery prefix of `sign_message_handler`: base58-decode the
secret ("Invalid secret key format" on failure), then `Keypair::from_bytes`
("Invalid secret key" on failure). -/
def decodeSecret (crypto : Ed25519) (secret : String) : Except String (List Nat) :=
  match decodeBase58 secret with
  | none => .error "Invalid secret key format"
  | some secretBytes =>
    match keypairFromBytes crypto secretBytes with
    | none => .error "Invalid secret key"
    | some kp => .ok kp

/-- `sign_message_handler`. -/
def sign_message_handler (crypto : Ed25519) (payload : SignMessageRequest) :
    Except String SignatureData :=
  if payload.message = "" ∨ payload.secret = "" then .error "Missing required fields"
  else
    match decodeSecret crypto payload.secret with
    | .error e => .error e
    | .ok kp =>
      match crypto.sign kp (strBytes payload.message) with
      | none => .error "Failed to sign message"
      | some sig =>
        .ok { signature := encodeBase64 sig
              public_key := encodeBase58 (keypairPubkey kp)
              message := payload.message }

/-- `verify_message_handler`: `Signature::try_from` requires exactly 64
decoded bytes; the verification outcome is always a 200 with a boolean. -/
def verify_message_handler (crypto : Ed25519) (payload : VerifyMessageRequest) :
    Except String VerifyData :=
  if payload.message = "" ∨ payload.signature = "" ∨ payload.pubkey = "" then
    .error "Missing required fields"
  else
    match parsePubkey payload.pubkey with
    | none => .error "Invalid public key"
    | some pk =>
      match decodeBase64 payload.signature with
      | none => .error "Invalid signature format"
      | some sigBytes =>
        if sigBytes.length = 64 then
          .ok { valid := crypto.verify pk (strBytes payload.message) sigBytes
                message := payload.message
                pubkey := payload.pubkey }
        else .error "Invalid signature"

/-- `send_sol_handler`. -/
def send_sol_handler (payload : SendSolRequest) : Except String Instruction :=
  if payload.fromAddr = "" ∨ payload.toAddr = "" then .error "Missing required fields"
  else if payload.lamports = 0 then .error "Amount must be greater than 0"
  else
    match parsePubkey payload.fromAddr with
    | none => .error "Invalid sender address"
    | some fromPubkey =>
      match parsePubkey payload.toAddr with
      | none => .error "Invalid recipient address"
      | some toPubkey =>
        if fromPubkey = toPubkey then .error "Cannot send SOL to the same address"
        else
          .ok { program_id := systemProgramId
                accounts := [.nameOnly payload.fromAddr, .nameOnly payload.toAddr]
                instruction_data := encodeBase64 ([2, 0, 0, 0] ++ u64Le payload.lamports) }

/-- `send_token_handler`: checks only field presence and a nonzero amount;
the address strings are never decoded on this path. -/
def send_token_handler (payload : SendTokenRequest) : Except String Instruction :=
  if payload.destination = "" ∨ payload.mint = "" ∨ payload.owner = "" then
    .error "Missing required fields"
  else if payload.amount = 0 then .error "Amount must be greater than 0"
  else
    .ok { program_id := tokenProgramId
          accounts := [.signerMeta payload.owner true, .signerMeta payload.destination false,
                       .signerMeta payload.mint false]
          instruction_data := encodeBase64 (3 :: u64Le payload.amount) }

/-! ## Lemmas: base58 round trip -/

theorem natBeBytesF_congr :
    ∀ n f₁ f₂, n ≤ f₁ → n ≤ f₂ → natBeBytesF f₁ n = natBeBytesF f₂ n := by
  intro n
  induction n using Nat.strong_induction_on with
  | _ n ih =>
    intro f₁ f₂ h₁ h₂
    by_cases hn : n = 0
    · subst hn
      cases f₁ <;> cases f₂ <;> simp [natBeBytesF]
    · obtain ⟨g₁, rfl⟩ : ∃ g, f₁ = g + 1 := ⟨f₁ - 1, by omega⟩
      obtain ⟨g₂, rfl⟩ : ∃ g, f₂ = g + 1 := ⟨f₂ - 1, by omega⟩
      simp only [natBeBytesF, if_neg hn]
      have hdiv : n / 256 < n := Nat.div_lt_self (Nat.pos_of_ne_zero hn) (by norm_num)
      rw [ih (n / 256) hdiv g₁ g₂ (by omega) (by omega)]

theorem natBeBytes_eq (n : Nat) :
    natBeBytes n = if n = 0 then [] else natBeBytes (n / 256) ++ [n % 256] := by
  by_cases hn : n = 0
  · subst hn; rfl
  · obtain ⟨m, rfl⟩ : ∃ m, n = m + 1 := ⟨n - 1, by omega⟩
    simp only [natBeBytes, natBeBytesF, if_neg hn]
    rw [natBeBytesF_congr ((m + 1) / 256) m ((m + 1) / 256)
      (by omega) le_rfl]

theorem natB58CharsF_congr :
    ∀ n f₁ f₂, n ≤ f₁ → n ≤ f₂ → natB58CharsF f₁ n = natB58CharsF f₂ n := by
  intro n
  induction n using Nat.strong_induction_on with
  | _ n ih =>
    intro f₁ f₂ h₁ h₂
    by_cases hn : n = 0
    · subst hn
      cases f₁ <;> cases f₂ <;> simp [natB58CharsF]
    · obtain ⟨g₁, rfl⟩ : ∃ g, f₁ = g + 1 := ⟨f₁ - 1, by omega⟩
      obtain ⟨g₂, rfl⟩ : ∃ g, f₂ = g + 1 := ⟨f₂ - 1, by omega⟩
      simp only [natB58CharsF, if_neg hn]
      have hdiv : n / 58 < n := Nat.div_lt_self (Nat.pos_of_ne_zero hn) (by norm_num)
      rw [ih (n / 58) hdiv g₁ g₂ (by omega) (by omega)]

theorem natB58Chars_eq (n : Nat) :
    natB58Chars n = if n = 0 then [] else natB58Chars (n / 58) ++ [b58Char (n % 58)] := by
  by_cases hn : n = 0
  · subst hn; rfl
  · obtain ⟨m, rfl⟩ : ∃ m, n = m + 1 := ⟨n - 1, by omega⟩
    simp only [natB58Chars, natB58CharsF, if_neg hn]
    rw [natB58CharsF_congr ((m + 1) / 58) m ((m + 1) / 58) (by omega) le_rfl]

theorem natBeBytes_zero : natBeBytes 0 = [] := rfl

theorem natB58Chars_zero : natB58Chars 0 = [] := rfl

theorem b58Digit_b58Char : ∀ d, d < 58 → b58Digit (b58Char d) = some d := by decide

theorem b58Char_ne_one : ∀ d, d < 58 → d ≠ 0 → b58Char d ≠ '1' := by decide

theorem b58ValAux_append (acc : Nat) (xs ys : List Char) :
    b58ValAux acc (xs ++ ys) =
      match b58ValAux acc xs with
      | none => none
      | some a => b58ValAux a ys := by
  induction xs generalizing acc with
  | nil => simp [b58ValAux]
  | cons c t ih =>
    simp only [List.cons_append, b58ValAux]
    cases b58Digit c <;> simp [ih]

theorem b58ValAux_replicate_one (acc z : Nat) :
    b58ValAux acc (List.replicate z '1') = some (acc * 58 ^ z) := by
  induction z generalizing acc with
  | zero => simp [b58ValAux]
  | succ z ih =>
    rw [List.replicate_succ]
    simp only [b58ValAux, show b58Digit '1' = some 0 from rfl]
    rw [ih]
    congr 1
    ring

theorem b58ValAux_natB58Chars :
    ∀ n acc, b58ValAux acc (natB58Chars n) =
      some (acc * 58 ^ (natB58Chars n).length + n) := by
  intro n
  induction n using Nat.strong_induction_on with
  | _ n ih =>
    intro acc
    by_cases hn : n = 0
    · subst hn; rw [natB58Chars_zero]; simp [b58ValAux]
    · rw [natB58Chars_eq, if_neg hn, List.length_append, b58ValAux_append]
      have hdiv : n / 58 < n := Nat.div_lt_self (Nat.pos_of_ne_zero hn) (by norm_num)
      rw [ih (n / 58) hdiv acc]
      simp only [b58ValAux, b58Digit_b58Char (n % 58) (Nat.mod_lt n (by norm_num)),
        List.length_cons, List.length_nil, Nat.zero_add]
      congr 1
      have hmod := Nat.div_add_mod n 58
      calc (acc * 58 ^ (natB58Chars (n / 58)).length + n / 58) * 58 + n % 58
          = acc * 58 ^ ((natB58Chars (n / 58)).length + 1) + (58 * (n / 58) + n % 58) := by
            rw [pow_succ]; ring
        _ = acc * 58 ^ ((natB58Chars (n / 58)).length + 1) + n := by rw [hmod]

theorem natB58Chars_ne_nil {n : Nat} (h : n ≠ 0) : natB58Chars n ≠ [] := by
  rw [natB58Chars_eq, if_neg h]
  simp

theorem natB58Chars_head_ne_one :
    ∀ n, n ≠ 0 → ∀ c, (natB58Chars n).head? = some c → c ≠ '1' := by
  intro n
  induction n using Nat.strong_induction_on with
  | _ n ih =>
    intro hn c hc
    rw [natB58Chars_eq, if_neg hn] at hc
    by_cases h58 : n / 58 = 0
    · rw [h58, natB58Chars_zero, List.nil_append, List.head?_cons, Option.some_inj] at hc
      have hlt : n < 58 := by
        rcases Nat.lt_or_ge n 58 with h | h
        · exact h
        · exact absurd h58 (by have : 0 < n / 58 := Nat.div_pos h (by norm_num); omega)
      have hne : n % 58 ≠ 0 := by rw [Nat.mod_eq_of_lt hlt]; exact hn
      exact hc ▸ b58Char_ne_one (n % 58) (Nat.mod_lt n (by norm_num)) hne
    · have hdiv : n / 58 < n := Nat.div_lt_self (Nat.pos_of_ne_zero hn) (by norm_num)
      cases hh : natB58Chars (n / 58) with
      | nil => exact absurd hh (natB58Chars_ne_nil h58)
      | cons d t =>
        rw [hh, List.cons_append, List.head?_cons, Option.some_inj] at hc
        exact hc ▸ ih (n / 58) hdiv h58 d (by rw [hh]; rfl)

theorem leadingOnes_replicate_append (z : Nat) (l : List Char)
    (h : ∀ c, l.head? = some c → c ≠ '1') :
    leadingOnes (List.replicate z '1' ++ l) = z := by
  induction z with
  | zero =>
    rw [List.replicate_zero, List.nil_append]
    cases l with
    | nil => rfl
    | cons c t =>
      have hc := h c rfl
      simp [leadingOnes, hc]
  | succ z ih =>
    rw [List.replicate_succ, List.cons_append]
    simp [leadingOnes, ih]

theorem leadingZeros_decomp :
    ∀ l : List Nat, l = List.replicate (leadingZeros l) 0 ++ l.drop (leadingZeros l) := by
  intro l
  induction l with
  | nil => rfl
  | cons b t ih =>
    by_cases hb : b = 0
    · subst hb
      simp only [leadingZeros, if_pos rfl, List.replicate_succ, List.cons_append,
        List.drop_succ_cons]
      exact congrArg (0 :: ·) ih
    · simp [leadingZeros, hb]

theorem leadingZeros_drop_head :
    ∀ (l : List Nat) (b : Nat), (l.drop (leadingZeros l)).head? = some b → b ≠ 0 := by
  intro l
  induction l with
  | nil => intro b h; simp at h
  | cons x t ih =>
    intro b h
    by_cases hx : x = 0
    · subst hx
      rw [show leadingZeros (0 :: t) = leadingZeros t + 1 from by simp [leadingZeros],
        List.drop_succ_cons] at h
      exact ih b h
    · rw [show leadingZeros (x :: t) = 0 from by simp [leadingZeros, hx],
        List.drop_zero, List.head?_cons, Option.some_inj] at h
      exact h ▸ hx

theorem leadingZeros_le_length : ∀ l : List Nat, leadingZeros l ≤ l.length := by
  intro l
  induction l with
  | nil => simp [leadingZeros]
  | cons b t ih =>
    by_cases hb : b = 0
    · simp only [leadingZeros, if_pos hb, List.length_cons]
      omega
    · simp [leadingZeros, hb]

theorem beValAux_replicate_zero (z : Nat) (l : List Nat) :
    ∀ acc, beValAux acc (List.replicate z 0 ++ l) = beValAux (acc * 256 ^ z) l := by
  induction z with
  | zero => intro acc; simp [beValAux]
  | succ z ih =>
    intro acc
    rw [List.replicate_succ, List.cons_append]
    show beValAux (acc * 256 + 0) _ = _
    rw [ih]
    congr 1
    rw [pow_succ]
    ring

theorem natBeBytes_beValAux :
    ∀ (l : List Nat) (acc : Nat), acc ≠ 0 → (∀ b ∈ l, b < 256) →
      natBeBytes (beValAux acc l) = natBeBytes acc ++ l := by
  intro l
  induction l with
  | nil => intro acc _ _; simp [beValAux]
  | cons b t ih =>
    intro acc hacc hmem
    show natBeBytes (beValAux (acc * 256 + b) t) = _
    have hb : b < 256 := hmem b (by simp)
    have hne : acc * 256 + b ≠ 0 := by omega
    rw [ih (acc * 256 + b) hne (fun x hx => hmem x (by simp [hx]))]
    have hstep : natBeBytes (acc * 256 + b) = natBeBytes acc ++ [b] := by
      rw [natBeBytes_eq (acc * 256 + b), if_neg hne]
      have h1 : (acc * 256 + b) / 256 = acc := by omega
      have h2 : (acc * 256 + b) % 256 = b := by omega
      rw [h1, h2]
    rw [hstep, List.append_assoc]
    rfl

theorem decodeBase58_encodeBase58 (l : List Nat) (hl : ∀ b ∈ l, b < 256) :
    decodeBase58 (encodeBase58 l) = some l := by
  have hdecomp := leadingZeros_decomp l
  have hval : beValAux 0 l = beValAux 0 (l.drop (leadingZeros l)) := by
    conv_lhs => rw [hdecomp]
    rw [beValAux_replicate_zero]
    simp
  have h1 : b58ValAux 0
      (List.replicate (leadingZeros l) '1' ++ natB58Chars (beValAux 0 l)) =
      some (beValAux 0 l) := by
    rw [b58ValAux_append, b58ValAux_replicate_one]
    show b58ValAux (0 * 58 ^ leadingZeros l) (natB58Chars (beValAux 0 l)) = _
    rw [Nat.zero_mul, b58ValAux_natB58Chars (beValAux 0 l) 0, Nat.zero_mul, Nat.zero_add]
  have h2 : leadingOnes
      (List.replicate (leadingZeros l) '1' ++ natB58Chars (beValAux 0 l)) =
      leadingZeros l := by
    apply leadingOnes_replicate_append
    intro c hc
    by_cases hn0 : beValAux 0 l = 0
    · rw [hn0, natB58Chars_zero] at hc
      simp at hc
    · exact natB58Chars_head_ne_one (beValAux 0 l) hn0 c hc
  have h3 : natBeBytes (beValAux 0 l) = l.drop (leadingZeros l) := by
    rw [hval]
    cases hr : l.drop (leadingZeros l) with
    | nil => rfl
    | cons b t =>
      have hb0 : b ≠ 0 := leadingZeros_drop_head l b (by rw [hr]; rfl)
      have hsub : ∀ x ∈ l.drop (leadingZeros l), x < 256 :=
        fun x hx => hl x (List.drop_subset _ l hx)
      have hb : b < 256 := hsub b (by rw [hr]; simp)
      show natBeBytes (beValAux (0 * 256 + b) t) = b :: t
      rw [Nat.zero_mul, Nat.zero_add]
      rw [natBeBytes_beValAux t b hb0 (fun x hx => hsub x (by rw [hr]; simp [hx]))]
      have hsingle : natBeBytes b = [b] := by
        rw [natBeBytes_eq, if_neg hb0]
        have hd : b / 256 = 0 := Nat.div_eq_of_lt hb
        have hm : b % 256 = b := Nat.mod_eq_of_lt hb
        rw [hd, hm, natBeBytes_zero, List.nil_append]
      rw [hsingle]
      rfl
  show (match b58ValAux 0
      (List.replicate (leadingZeros l) '1' ++ natB58Chars (beValAux 0 l)) with
    | none => none
    | some n =>
      some (List.replicate
        (leadingOnes (List.replicate (leadingZeros l) '1' ++
          natB58Chars (beValAux 0 l))) 0 ++ natBeBytes n)) = some l
  rw [h1]
  show some (List.replicate
      (leadingOnes (List.replicate (leadingZeros l) '1' ++
        natB58Chars (beValAux 0 l))) 0 ++ natBeBytes (beValAux 0 l)) = some l
  rw [h2, h3]
  exact congrArg some hdecomp.symm

/-! ## Lemmas: `parsePubkey` accepts the canonical encoding of 32 bytes -/

theorem natB58Chars_length_le :
    ∀ n k, n < 58 ^ k → (natB58Chars n).length ≤ k := by
  intro n
  induction n using Nat.strong_induction_on with
  | _ n ih =>
    intro k hk
    by_cases hn : n = 0
    · subst hn; rw [natB58Chars_zero]; simp
    · rw [natB58Chars_eq, if_neg hn, List.length_append, List.length_cons, List.length_nil]
      cases k with
      | zero =>
        exfalso
        have : n < 1 := by simpa using hk
        omega
      | succ k =>
        have hdivlt : n / 58 < 58 ^ k := by
          rw [Nat.div_lt_iff_lt_mul (by norm_num)]
          calc n < 58 ^ (k + 1) := hk
            _ = 58 ^ k * 58 := by rw [pow_succ]
        have := ih (n / 58) (Nat.div_lt_self (Nat.pos_of_ne_zero hn) (by norm_num)) k hdivlt
        omega

theorem beValAux_lt :
    ∀ (l : List Nat) (acc : Nat), (∀ b ∈ l, b < 256) →
      beValAux acc l < (acc + 1) * 256 ^ l.length := by
  intro l
  induction l with
  | nil => intro acc _; simp [beValAux]
  | cons b t ih =>
    intro acc hmem
    show beValAux (acc * 256 + b) t < _
    have hb : b < 256 := hmem b (by simp)
    calc beValAux (acc * 256 + b) t
        < (acc * 256 + b + 1) * 256 ^ t.length :=
          ih (acc * 256 + b) (fun x hx => hmem x (by simp [hx]))
      _ ≤ ((acc + 1) * 256) * 256 ^ t.length := by
          apply Nat.mul_le_mul_right
          omega
      _ = (acc + 1) * 256 ^ (b :: t).length := by
          rw [List.length_cons, pow_succ]
          ring

theorem encodeBase58_length_le (l : List Nat) (h32 : l.length = 32)
    (hl : ∀ b ∈ l, b < 256) : (encodeBase58 l).length ≤ 44 := by
  have hz : leadingZeros l ≤ 32 := h32 ▸ leadingZeros_le_length l
  have hval : beValAux 0 l = beValAux 0 (l.drop (leadingZeros l)) := by
    conv_lhs => rw [leadingZeros_decomp l]
    rw [beValAux_replicate_zero]
    simp
  have hdroplen : (l.drop (leadingZeros l)).length = 32 - leadingZeros l := by
    rw [List.length_drop, h32]
  have hlt : beValAux 0 l < 256 ^ (32 - leadingZeros l) := by
    rw [hval]
    have := beValAux_lt (l.drop (leadingZeros l)) 0
      (fun x hx => hl x (List.drop_subset _ l hx))
    rw [hdroplen] at this
    simpa using this
  have hpow : (256 : Nat) ^ (32 - leadingZeros l) ≤ 58 ^ (44 - leadingZeros l) := by
    have key : (256 : Nat) ^ 32 ≤ 58 ^ 44 := by norm_num
    have hchain : (256 : Nat) ^ (32 - leadingZeros l) * 58 ^ leadingZeros l ≤
        58 ^ (44 - leadingZeros l) * 58 ^ leadingZeros l := by
      calc (256 : Nat) ^ (32 - leadingZeros l) * 58 ^ leadingZeros l
          ≤ 256 ^ (32 - leadingZeros l) * 256 ^ leadingZeros l :=
            Nat.mul_le_mul_left _ (Nat.pow_le_pow_left (by norm_num) _)
        _ = 256 ^ (32 - leadingZeros l + leadingZeros l) := (pow_add 256 _ _).symm
        _ = 256 ^ 32 := by rw [Nat.sub_add_cancel hz]
        _ ≤ 58 ^ 44 := key
        _ = 58 ^ (44 - leadingZeros l + leadingZeros l) := by
            rw [Nat.sub_add_cancel (le_trans hz (by norm_num))]
        _ = 58 ^ (44 - leadingZeros l) * 58 ^ leadingZeros l := pow_add 58 _ _
    exact Nat.le_of_mul_le_mul_right hchain (Nat.pos_pow_of_pos _ (by norm_num))
  have hchars : (natB58Chars (beValAux 0 l)).length ≤ 44 - leadingZeros l :=
    natB58Chars_length_le (beValAux 0 l) (44 - leadingZeros l) (lt_of_lt_of_le hlt hpow)
  show (List.replicate (leadingZeros l) '1' ++ natB58Chars (beValAux 0 l)).length ≤ 44
  rw [List.length_append, List.length_replicate]
  omega

theorem parsePubkey_encodeBase58 (l : List Nat) (h32 : l.length = 32)
    (hl : ∀ b ∈ l, b < 256) : parsePubkey (encodeBase58 l) = some l := by
  have hlen := encodeBase58_length_le l h32 hl
  show (if (encodeBase58 l).length > 44 then none else _) = some l
  rw [if_neg (by omega)]
  rw [decodeBase58_encodeBase58 l hl]
  show (if l.length = 32 then some l else none) = some l
  rw [if_pos h32]

theorem parsePubkey_empty : parsePubkey "" = none := rfl

theorem parsePubkey_ne_empty {s : String} {pk : List Nat}
    (h : parsePubkey s = some pk) : s ≠ "" := by
  intro he
  rw [he, parsePubkey_empty] at h
  exact Option.noConfusion h

/-! ## Lemmas: base64 round trip -/

theorem b64Digit_b64Char : ∀ d, d < 64 → b64Digit (b64Char d) = some d := by decide

theorem b64Char_ne_pad : ∀ d, d < 64 → b64Char d ≠ '=' := by decide

theorem decodeB64Chars_encodeB64Chars_aux :
    ∀ (fuel : Nat) (l : List Nat), l.length ≤ fuel → (∀ b ∈ l, b < 256) →
      decodeB64Chars (encodeB64Chars l) = some l := by
  intro fuel
  induction fuel with
  | zero =>
    intro l hlen _
    have : l = [] := List.eq_nil_of_length_eq_zero (by omega)
    subst this
    rfl
  | succ fuel ih =>
    intro l hlen hmem
    match l with
    | [] => rfl
    | [a] =>
      have ha : a < 256 := hmem a (by simp)
      show decodeB64Chars [b64Char (a / 4), b64Char (a % 4 * 16), '=', '='] = some [a]
      simp only [decodeB64Chars, b64Digit_b64Char (a / 4) (by omega),
        b64Digit_b64Char (a % 4 * 16) (by omega)]
      have e0 : a % 4 * 16 % 16 = 0 := by omega
      simp [e0]
      omega
    | [a, b] =>
      have ha : a < 256 := hmem a (by simp)
      have hb : b < 256 := hmem b (by simp)
      show decodeB64Chars [b64Char (a / 4), b64Char (a % 4 * 16 + b / 16),
        b64Char (b % 16 * 4), '='] = some [a, b]
      simp only [decodeB64Chars, b64Digit_b64Char (a / 4) (by omega),
        b64Digit_b64Char (a % 4 * 16 + b / 16) (by omega),
        b64Digit_b64Char (b % 16 * 4) (by omega)]
      rw [if_neg (b64Char_ne_pad (b % 16 * 4) (by omega))]
      have e0 : b % 16 * 4 % 4 = 0 := by omega
      have e1 : a / 4 * 4 + (a % 4 * 16 + b / 16) / 16 = a := by omega
      simp [e0, e1]
      omega
    | a :: b :: c :: t =>
      have ha : a < 256 := hmem a (by simp)
      have hb : b < 256 := hmem b (by simp)
      have hc : c < 256 := hmem c (by simp)
      show decodeB64Chars (b64Char (a / 4) :: b64Char (a % 4 * 16 + b / 16) ::
        b64Char (b % 16 * 4 + c / 64) :: b64Char (c % 64) :: encodeB64Chars t) =
        some (a :: b :: c :: t)
      simp only [decodeB64Chars, b64Digit_b64Char (a / 4) (by omega),
        b64Digit_b64Char (a % 4 * 16 + b / 16) (by omega),
        b64Digit_b64Char (b % 16 * 4 + c / 64) (by omega),
        b64Digit_b64Char (c % 64) (by omega)]
      rw [if_neg (b64Char_ne_pad (b % 16 * 4 + c / 64) (by omega)),
        if_neg (b64Char_ne_pad (c % 64) (by omega))]
      have hrec : decodeB64Chars (encodeB64Chars t) = some t := by
        apply ih t _ (fun x hx => hmem x (by simp [hx]))
        have : (a :: b :: c :: t).length = t.length + 3 := by simp
        omega
      have h1 : a / 4 * 4 + (a % 4 * 16 + b / 16) / 16 = a := by omega
      have h2 : (a % 4 * 16 + b / 16) % 16 * 16 + (b % 16 * 4 + c / 64) / 4 = b := by omega
      have h3 : (b % 16 * 4 + c / 64) % 4 * 64 + c % 64 = c := by omega
      simp [hrec, h1, h2, h3]

theorem decodeBase64_encodeBase64 (l : List Nat) (hl : ∀ b ∈ l, b < 256) :
    decodeBase64 (encodeBase64 l) = some l :=
  decodeB64Chars_encodeB64Chars_aux l.length l le_rfl hl

theorem decodeBase64_empty : decodeBase64 "" = some [] := rfl

/-! ## Lemmas: little-endian u64 bytes -/

theorem leVal_u64Le (a : Nat) (ha : a < 2 ^ 64) : leVal (u64Le a) = a := by
  have ha' : a < 18446744073709551616 := by
    calc a < 2 ^ 64 := ha
      _ = 18446744073709551616 := by norm_num
  simp only [u64Le, leVal]
  omega

theorem u64Le_lt (a : Nat) : ∀ b ∈ u64Le a, b < 256 := by
  intro b hb
  simp only [u64Le, List.mem_cons, List.not_mem_nil, or_false] at hb
  rcases hb with rfl | rfl | rfl | rfl | rfl | rfl | rfl | rfl <;> omega

/-! ## Lemmas: handler-level helpers -/

theorem encodeBase58_ne_empty (l : List Nat) (hl : ∀ b ∈ l, b < 256) (hne : l ≠ []) :
    encodeBase58 l ≠ "" := by
  intro h
  have hrt := decodeBase58_encodeBase58 l hl
  rw [h] at hrt
  have : some [] = some l := hrt
  exact hne (Option.some_inj.mp this).symm

theorem encodeBase64_ne_empty (l : List Nat) (hl : ∀ b ∈ l, b < 256) (hne : l ≠ []) :
    encodeBase64 l ≠ "" := by
  intro h
  have hrt := decodeBase64_encodeBase64 l hl
  rw [h, decodeBase64_empty] at hrt
  exact hne (Option.some_inj.mp hrt).symm

theorem decodeSecret_encodeSecret (crypto : Ed25519) (kp : List Nat)
    (hlen : kp.length = 64) (hbytes : ∀ b ∈ kp, b < 256)
    (hvalid : crypto.validKeyPair64 kp = true) :
    decodeSecret crypto (encodeSecret kp) = .ok kp := by
  unfold decodeSecret encodeSecret
  rw [decodeBase58_encodeBase58 kp hbytes]
  show (match keypairFromBytes crypto kp with
    | none => Except.error "Invalid secret key"
    | some kp => Except.ok kp) = Except.ok kp
  unfold keypairFromBytes
  rw [if_pos hlen, if_pos hvalid]

/-! ## Claim theorems -/

/-- C1 (counterexample): the claim says every operation rejects empty or
undecodable addresses and a zero amount, but `mint_token_handler` performs no
validation at all: with every address empty and `amount = 0` it still returns
a complete instruction. -/
theorem C1_counterexample :
    mint_token_handler { mint := "", destination := "", authority := "", amount := 0 } =
      .ok { program_id := tokenProgramId
            accounts := [.meta "" false true, .meta "" false true, .meta "" true false]
            instruction_data := encodeBase64 (7 :: u64Le 0) } := rfl

/-- C1 (amended): validation is per operation. TransferNative rejects empty
addresses, zero lamports and undecodable addresses; TransferToken rejects
empty addresses and a zero amount (its addresses are never decoded);
InitializeMint and MintTo perform no validation and always succeed. -/
theorem C1_per_operation_validation :
    (∀ r : SendSolRequest,
      r.fromAddr = "" ∨ r.toAddr = "" ∨ r.lamports = 0 ∨
        parsePubkey r.fromAddr = none ∨ parsePubkey r.toAddr = none →
      (send_sol_handler r).isOk = false)
    ∧ (∀ r : SendTokenRequest,
      r.destination = "" ∨ r.mint = "" ∨ r.owner = "" ∨ r.amount = 0 →
      (send_token_handler r).isOk = false)
    ∧ (∀ r : CreateTokenRequest, (create_token_handler r).isOk = true)
    ∧ (∀ r : MintTokenRequest, (mint_token_handler r).isOk = true) := by
  refine ⟨?_, ?_, fun r => rfl, fun r => rfl⟩
  · intro r h
    by_cases h1 : r.fromAddr = "" ∨ r.toAddr = ""
    · simp [send_sol_handler, h1, Except.isOk, Except.toBool]
    · by_cases h2 : r.lamports = 0
      · simp [send_sol_handler, h1, h2, Except.isOk, Except.toBool]
      · rcases h with h | h | h | h | h
        · exact absurd (Or.inl h) h1
        · exact absurd (Or.inr h) h1
        · exact absurd h h2
        · simp [send_sol_handler, h1, h2, h, Except.isOk, Except.toBool]
        · cases hf : parsePubkey r.fromAddr with
          | none => simp [send_sol_handler, h1, h2, hf, Except.isOk, Except.toBool]
          | some fp => simp [send_sol_handler, h1, h2, hf, h, Except.isOk, Except.toBool]
  · intro r h
    by_cases h1 : r.destination = "" ∨ r.mint = "" ∨ r.owner = ""
    · simp [send_token_handler, h1, Except.isOk, Except.toBool]
    · rcases h with h | h | h | h
      · exact absurd (Or.inl h) h1
      · exact absurd (Or.inr (Or.inl h)) h1
      · exact absurd (Or.inr (Or.inr h)) h1
      · simp [send_token_handler, h1, h, Except.isOk, Except.toBool]

/-- C1 (witness): concrete instances of each conjunct of the amended claim. -/
theorem C1_witness :
    (send_sol_handler { fromAddr := "", toAddr := "x", lamports := 5 }).isOk = false
    ∧ (send_token_handler { destination := "d", mint := "m", owner := "o", amount := 0 }).isOk = false
    ∧ (create_token_handler { mint_authority := "a", mint := "m", decimals := 9 }).isOk = true
    ∧ (mint_token_handler { mint := "m", destination := "d", authority := "a", amount := 3 }).isOk = true :=
  ⟨C1_per_operation_validation.1 _ (Or.inl rfl),
   C1_per_operation_validation.2.1 _ (Or.inr (Or.inr (Or.inr rfl))),
   C1_per_operation_validation.2.2.1 _,
   C1_per_operation_validation.2.2.2 _⟩

/-- C2 (counterexample): for a valid native transfer the response's account
list consists of the two bare address strings; the entries carry no
signer/writable tags, so they are not the tagged metadata the claim
describes. -/
theorem C2_counterexample :
    (send_sol_handler { fromAddr := addrA, toAddr := addrB, lamports := 5000 }).map
      (fun out => out.accounts) = .ok [.nameOnly addrA, .nameOnly addrB]
    ∧ ([.nameOnly addrA, .nameOnly addrB] : List AccountEntry) ≠
      [.meta addrA true true, .meta addrB false true] := by
  exact ⟨rfl, by decide⟩

/-- C2 (amended): for every valid TransferNative request the result has the
fixed system-program id string, the ordered account list [from, to] carried
as plain address strings without signer/writable tags, and a payload whose
bytes are 0x02,0x00,0x00,0x00 followed by the lamports as 8 little-endian
bytes. -/
theorem C2_native_transfer_encoding (r : SendSolRequest) (fp tp : List Nat)
    (hlam : r.lamports ≠ 0) (hsize : r.lamports < 2 ^ 64)
    (hf : parsePubkey r.fromAddr = some fp) (ht : parsePubkey r.toAddr = some tp)
    (hne : fp ≠ tp) :
    send_sol_handler r =
      .ok { program_id := "11111111111111111111111111111112"
            accounts := [.nameOnly r.fromAddr, .nameOnly r.toAddr]
            instruction_data := encodeBase64 ([2, 0, 0, 0] ++ u64Le r.lamports) }
    ∧ decodeBase64 (encodeBase64 ([2, 0, 0, 0] ++ u64Le r.lamports)) =
        some ([2, 0, 0, 0] ++ u64Le r.lamports)
    ∧ leVal (u64Le r.lamports) = r.lamports := by
  have hfe : r.fromAddr ≠ "" := parsePubkey_ne_empty hf
  have hte : r.toAddr ≠ "" := parsePubkey_ne_empty ht
  refine ⟨?_, decodeBase64_encodeBase64 _ ?_, leVal_u64Le _ hsize⟩
  · simp [send_sol_handler, hfe, hte, hlam, hf, ht, hne, systemProgramId]
  · intro b hb
    rcases List.mem_append.mp hb with h | h
    · simp only [List.mem_cons, List.not_mem_nil, or_false] at h
      rcases h with rfl | rfl | rfl | rfl <;> omega
    · exact u64Le_lt _ b h

/-- C2 (witness): the amended encoding at a concrete valid request. -/
theorem C2_witness :
    send_sol_handler { fromAddr := addrA, toAddr := addrB, lamports := 5000 } =
      .ok { program_id := "11111111111111111111111111111112"
            accounts := [.nameOnly addrA, .nameOnly addrB]
            instruction_data := encodeBase64 ([2, 0, 0, 0] ++ u64Le 5000) }
    ∧ decodeBase64 (encodeBase64 ([2, 0, 0, 0] ++ u64Le 5000)) =
        some ([2, 0, 0, 0] ++ u64Le 5000)
    ∧ leVal (u64Le 5000) = 5000 :=
  C2_native_transfer_encoding _ (List.replicate 31 0 ++ [2]) (List.replicate 31 0 ++ [1])
    (by decide) (by norm_num) (by decide) (by decide) (by decide)

/-- C3: when both addresses of a native transfer decode to the same 32-byte
value the handler fails with the SameAddress error; the comparison is on the
decoded values, not the input strings. -/
theorem C3_same_decoded_address (r : SendSolRequest) (pk : List Nat)
    (hlam : r.lamports ≠ 0)
    (hf : parsePubkey r.fromAddr = some pk) (ht : parsePubkey r.toAddr = some pk) :
    send_sol_handler r = .error "Cannot send SOL to the same address" := by
  have hfe : r.fromAddr ≠ "" := parsePubkey_ne_empty hf
  have hte : r.toAddr ≠ "" := parsePubkey_ne_empty ht
  simp [send_sol_handler, hfe, hte, hlam, hf, ht]

/-- C3 (witness): the SameAddress failure at a concrete request. -/
theorem C3_witness :
    send_sol_handler { fromAddr := addrB, toAddr := addrB, lamports := 1 } =
      .error "Cannot send SOL to the same address" :=
  C3_same_decoded_address _ (List.replicate 31 0 ++ [1]) (by decide) (by decide) (by decide)

/-- C4: every InitializeMint request yields the fixed token-program id,
exactly the 2 accounts [mint, authority] with signer flags [false, true] and
writable flags [true, false], and payload bytes [0x00, decimals]. -/
theorem C4_initialize_mint (r : CreateTokenRequest) (hd : r.decimals < 256) :
    create_token_handler r =
      .ok { program_id := tokenProgramId
            accounts := [.meta r.mint false true, .meta r.mint_authority true false]
            instruction_data := encodeBase64 [0, r.decimals] }
    ∧ decodeBase64 (encodeBase64 [0, r.decimals]) = some [0, r.decimals] := by
  refine ⟨rfl, decodeBase64_encodeBase64 _ ?_⟩
  intro b hb
  simp only [List.mem_cons, List.not_mem_nil, or_false] at hb
  rcases hb with rfl | rfl <;> omega

/-- C4 (witness): decimals = 9 yields payload bytes [0x00, 0x09]. -/
theorem C4_witness :
    create_token_handler { mint_authority := "a", mint := "m", decimals := 9 } =
      .ok { program_id := tokenProgramId
            accounts := [.meta "m" false true, .meta "a" true false]
            instruction_data := encodeBase64 [0, 9] }
    ∧ decodeBase64 (encodeBase64 [0, 9]) = some [0, 9] :=
  C4_initialize_mint { mint_authority := "a", mint := "m", decimals := 9 } (by norm_num)

/-- C5: every MintTo request yields the fixed token-program id, exactly the 3
accounts [mint, destination, authority] with writable flags [true, true,
false] and signer flags [false, false, true], and payload 0x07 followed by
the amount as 8 little-endian bytes. -/
theorem C5_mint_to (r : MintTokenRequest) (ha : r.amount < 2 ^ 64) :
    mint_token_handler r =
      .ok { program_id := tokenProgramId
            accounts := [.meta r.mint false true, .meta r.destination false true,
                         .meta r.authority true false]
            instruction_data := encodeBase64 (7 :: u64Le r.amount) }
    ∧ decodeBase64 (encodeBase64 (7 :: u64Le r.amount)) = some (7 :: u64Le r.amount)
    ∧ leVal (u64Le r.amount) = r.amount := by
  refine ⟨rfl, decodeBase64_encodeBase64 _ ?_, leVal_u64Le _ ha⟩
  intro b hb
  rcases List.mem_cons.mp hb with rfl | h
  · omega
  · exact u64Le_lt _ b h

/-- C5 (witness): amount = 1000000 yields payload 0x07 plus its little-endian
bytes. -/
theorem C5_witness :
    mint_token_handler { mint := "m", destination := "d", authority := "a",
                         amount := 1000000 } =
      .ok { program_id := tokenProgramId
            accounts := [.meta "m" false true, .meta "d" false true, .meta "a" true false]
            instruction_data := encodeBase64 (7 :: u64Le 1000000) }
    ∧ decodeBase64 (encodeBase64 (7 :: u64Le 1000000)) = some (7 :: u64Le 1000000)
    ∧ leVal (u64Le 1000000) = 1000000 :=
  C5_mint_to { mint := "m", destination := "d", authority := "a", amount := 1000000 }
    (by norm_num)

/-- C6 (counterexample): the secret "2" is valid base58 and decodes to the
single byte [1], so its length is not 64; the claim requires the
InvalidEncoding-kind error ("Invalid secret key format"), but the handler
fails with the InvalidKey-kind error ("Invalid secret key"), because the
length check lives inside `Keypair::from_bytes`. -/
theorem C6_counterexample :
    sign_message_handler constEd25519 { message := "m", secret := "2" } =
      .error "Invalid secret key"
    ∧ decodeBase58 "2" = some [1]
    ∧ sign_message_handler constEd25519 { message := "m", secret := "2" } ≠
      .error "Invalid secret key format" := by
  refine ⟨rfl, rfl, ?_⟩
  decide

/-- C6 (amended): a nonempty base58-decodable secret whose decoded length is
not 64 bytes fails with the InvalidKey-kind error "Invalid secret key" (the
same error as invalid key material); the InvalidEncoding-kind error "Invalid
secret key format" occurs only when base58 decoding itself fails. -/
theorem C6_secret_length_error (crypto : Ed25519) (r : SignMessageRequest)
    (bs : List Nat) (hm : r.message ≠ "") (hs : r.secret ≠ "")
    (hdec : decodeBase58 r.secret = some bs) (hlen : bs.length ≠ 64) :
    sign_message_handler crypto r = .error "Invalid secret key" := by
  simp [sign_message_handler, hm, hs, decodeSecret, hdec, keypairFromBytes, hlen]

/-- C6 (witness): the amended behaviour at the concrete secret "2". -/
theorem C6_witness :
    sign_message_handler constEd25519 { message := "msg", secret := "2" } =
      .error "Invalid secret key" :=
  C6_secret_length_error constEd25519 { message := "msg", secret := "2" } [1]
    (by decide) (by decide) rfl (by decide)

/-- C7 (counterexample): with a decodable 32-byte public key and a valid
base64 signature of exactly 64 bytes, the empty message still produces the
MissingField error, so "never returns an error ... for any message" fails at
the empty message. -/
theorem C7_counterexample :
    verify_message_handler constEd25519
      { message := "", signature := String.mk (List.replicate 86 'A' ++ ['=', '=']),
        pubkey := addrB } = .error "Missing required fields"
    ∧ (parsePubkey addrB).isSome = true
    ∧ decodeBase64 (String.mk (List.replicate 86 'A' ++ ['=', '='])) =
        some (List.replicate 64 0) := by
  refine ⟨rfl, rfl, ?_⟩
  decide

/-- C7 (amended): for every structurally valid input with a NONEMPTY message
(decodable public key, base64 signature decoding to exactly 64 bytes) the
verify handler never fails: it returns a success envelope whose `valid` field
is the boolean outcome of the underlying signature check. -/
theorem C7_verify_total (crypto : Ed25519) (r : VerifyMessageRequest)
    (pk sigBytes : List Nat) (hm : r.message ≠ "")
    (hpk : parsePubkey r.pubkey = some pk)
    (hsig : decodeBase64 r.signature = some sigBytes) (hlen : sigBytes.length = 64) :
    verify_message_handler crypto r =
      .ok { valid := crypto.verify pk (strBytes r.message) sigBytes
            message := r.message
            pubkey := r.pubkey } := by
  have hpe : r.pubkey ≠ "" := by
    intro h
    rw [h, parsePubkey_empty] at hpk
    exact Option.noConfusion hpk
  have hse : r.signature ≠ "" := by
    intro h
    rw [h, decodeBase64_empty] at hsig
    have : sigBytes = [] := (Option.some_inj.mp hsig).symm
    rw [this] at hlen
    simp at hlen
  simp [verify_message_handler, hm, hpe, hse, hpk, hsig, hlen]

/-- C7 (witness): the amended behaviour at a concrete valid input. -/
theorem C7_witness :
    verify_message_handler constEd25519
      { message := "m", signature := String.mk (List.replicate 86 'A' ++ ['=', '=']),
        pubkey := addrB } =
      .ok { valid := constEd25519.verify (List.replicate 31 0 ++ [1]) (strBytes "m")
              (List.replicate 64 0)
            message := "m"
            pubkey := addrB } :=
  C7_verify_total constEd25519 _ (List.replicate 31 0 ++ [1]) (List.replicate 64 0)
    (by decide) (by decide) (by decide) (by decide)

/-- C8: for every 64-byte key material accepted by the underlying primitive,
decoding the encoded secret returns exactly the original bytes:
decodeSecret (encodeSecret kp) = ok kp. -/
theorem C8_secret_roundtrip (crypto : Ed25519) (kp : List Nat)
    (hlen : kp.length = 64) (hbytes : ∀ b ∈ kp, b < 256)
    (hvalid : crypto.validKeyPair64 kp = true) :
    decodeSecret crypto (encodeSecret kp) = .ok kp :=
  decodeSecret_encodeSecret crypto kp hlen hbytes hvalid

/-- C8 (witness): the round trip at a concrete 64-byte keypair. -/
theorem C8_witness :
    decodeSecret constEd25519 (encodeSecret (List.replicate 64 0)) =
      .ok (List.replicate 64 0) :=
  C8_secret_roundtrip constEd25519 (List.replicate 64 0) (by decide) (by decide) rfl

/-- C9: the handlers sign and verify the raw UTF-8 message bytes with no
added prefix, so whenever the underlying primitive verifies its own
signatures, signing a message and then verifying the produced signature
against the produced public-key text succeeds with valid = true. -/
theorem C9_sign_verify_roundtrip (crypto : Ed25519) (kp sig : List Nat) (m : String)
    (hklen : kp.length = 64) (hkbytes : ∀ b ∈ kp, b < 256)
    (hvalid : crypto.validKeyPair64 kp = true) (hm : m ≠ "")
    (hsign : crypto.sign kp (strBytes m) = some sig)
    (hslen : sig.length = 64) (hsbytes : ∀ b ∈ sig, b < 256)
    (hverify : crypto.verify (keypairPubkey kp) (strBytes m) sig = true) :
    sign_message_handler crypto { message := m, secret := encodeSecret kp } =
      .ok { signature := encodeBase64 sig
            public_key := encodeBase58 (keypairPubkey kp)
            message := m }
    ∧ verify_message_handler crypto
        { message := m, signature := encodeBase64 sig,
          pubkey := encodeBase58 (keypairPubkey kp) } =
      .ok { valid := true
            message := m
            pubkey := encodeBase58 (keypairPubkey kp) } := by
  have hpk : (keypairPubkey kp).length = 32 := by
    simp [keypairPubkey, List.length_drop, hklen]
  have hpkbytes : ∀ b ∈ keypairPubkey kp, b < 256 :=
    fun b hb => hkbytes b (List.drop_subset _ kp hb)
  have hse : encodeSecret kp ≠ "" :=
    encodeBase58_ne_empty kp hkbytes (by intro h; rw [h] at hklen; simp at hklen)
  constructor
  · simp [sign_message_handler, hm, hse,
      decodeSecret_encodeSecret crypto kp hklen hkbytes hvalid, hsign]
  · have hsige : encodeBase64 sig ≠ "" :=
      encodeBase64_ne_empty sig hsbytes (by intro h; rw [h] at hslen; simp at hslen)
    have hpke : encodeBase58 (keypairPubkey kp) ≠ "" :=
      encodeBase58_ne_empty _ hpkbytes (by intro h; rw [h] at hpk; simp at hpk)
    simp [verify_message_handler, hm, hsige, hpke,
      parsePubkey_encodeBase58 _ hpk hpkbytes,
      decodeBase64_encodeBase64 sig hsbytes, hslen, hverify]

/-- C9 (witness): the sign-then-verify round trip at a concrete keypair and
message, instantiating the primitive interface. -/
theorem C9_witness :
    sign_message_handler constEd25519
      { message := "m", secret := encodeSecret (List.replicate 64 0) } =
      .ok { signature := encodeBase64 (List.replicate 64 0)
            public_key := encodeBase58 (keypairPubkey (List.replicate 64 0))
            message := "m" }
    ∧ verify_message_handler constEd25519
        { message := "m", signature := encodeBase64 (List.replicate 64 0),
          pubkey := encodeBase58 (keypairPubkey (List.replicate 64 0)) } =
      .ok { valid := true
            message := "m"
            pubkey := encodeBase58 (keypairPubkey (List.replicate 64 0)) } :=
  C9_sign_verify_roundtrip constEd25519 (List.replicate 64 0) (List.replicate 64 0) "m"
    (by decide) (by decide) rfl (by decide) rfl (by decide) (by decide) rfl

/-- C10: a token transfer with nonempty owner, destination and mint and a
positive amount always succeeds, with no address decoding and no
address-equality check; in particular owner and destination may be the same
string (the quantification imposes no distinctness). -/
theorem C10_token_transfer_no_same_address_check (r : SendTokenRequest)
    (hd : r.destination ≠ "") (hm : r.mint ≠ "") (ho : r.owner ≠ "")
    (ha : r.amount ≠ 0) :
    send_token_handler r =
      .ok { program_id := tokenProgramId
            accounts := [.signerMeta r.owner true, .signerMeta r.destination false,
                         .signerMeta r.mint false]
            instruction_data := encodeBase64 (3 :: u64Le r.amount) } := by
  simp [send_token_handler, hd, hm, ho, ha]

/-- C10 (witness): a self-transfer (owner = destination = "X") succeeds. -/
theorem C10_witness :
    send_token_handler { destination := "X", mint := "M", owner := "X", amount := 5 } =
      .ok { program_id := tokenProgramId
            accounts := [.signerMeta "X" true, .signerMeta "X" false,
                         .signerMeta "M" false]
            instruction_data := encodeBase64 (3 :: u64Le 5) } :=
  C10_token_transfer_no_same_address_check
    { destination := "X", mint := "M", owner := "X", amount := 5 }
    (by decide) (by decide) (by decide) (by decide)

end SolSvc
